import Mathlib

/-!
Verification of the Java code chunker (`src/core/indexing/chunk/java/code.ts`)
against its natural-language specification.

The tree-sitter syntax tree is embedded as a mutual inductive (`SyntaxNode` /
`SyntaxNodeList`): each node carries its type tag, byte offsets into the source
text, row positions, and the ordered child list.  Source text is `List Char`;
a node's `text` is the slice of the source between its offsets, exactly as in
web-tree-sitter.  The parser obtained from `getParserForFile` is modelled as an
optional function from contents to a root node.
-/

mutual
inductive SyntaxNode where
  | mk (type : String) (startIndex endIndex startRow endRow : Nat)
       (children : SyntaxNodeList)
inductive SyntaxNodeList where
  | nil
  | cons (head : SyntaxNode) (tail : SyntaxNodeList)
end

def SyntaxNode.type : SyntaxNode → String
  | .mk t _ _ _ _ _ => t

def SyntaxNode.startIndex : SyntaxNode → Nat
  | .mk _ s _ _ _ _ => s

def SyntaxNode.endIndex : SyntaxNode → Nat
  | .mk _ _ e _ _ _ => e

def SyntaxNode.startRow : SyntaxNode → Nat
  | .mk _ _ _ r _ _ => r

def SyntaxNode.endRow : SyntaxNode → Nat
  | .mk _ _ _ _ r _ => r

def SyntaxNode.children : SyntaxNode → SyntaxNodeList
  | .mk _ _ _ _ _ c => c

def SyntaxNodeList.toList : SyntaxNodeList → List SyntaxNode
  | .nil => []
  | .cons h t => h :: t.toList

/-- The first element of the child list satisfying `p`
(TS `node.children.find(p)`). -/
def childFind (p : SyntaxNode → Bool) : SyntaxNodeList → Option SyntaxNode
  | .nil => none
  | .cons h t => if p h then some h else childFind p t

/-- `code.slice(a, b)` on the source text (character positions, end exclusive). -/
def strSlice (code : List Char) (a b : Nat) : List Char :=
  (code.drop a).take (b - a)

/-- `node.text`: the source text covered by the node. -/
def nodeText (code : List Char) (n : SyntaxNode) : List Char :=
  strSlice code n.startIndex n.endIndex

/-- Whitespace characters stripped by JS `String.prototype.trim`. -/
def isJsWhitespace (c : Char) : Bool :=
  c == ' ' || c == '\t' || c == '\n' || c == '\r' || c == '\u000B' || c == '\u000C'

/-- JS `String.prototype.trim`. -/
def trimChars (s : List Char) : List Char :=
  ((s.dropWhile isJsWhitespace).reverse.dropWhile isJsWhitespace).reverse

/-- JS `String.prototype.replace` with a plain-string pattern and empty
replacement: deletes the first occurrence of `pat`. -/
def replaceFirst : List Char → List Char → List Char
  | [], _ => []
  | c :: rest, pat =>
    if pat.isPrefixOf (c :: rest) then (c :: rest).drop pat.length
    else c :: replaceFirst rest pat

namespace NODE_TYPES

def PACKAGE : String := "package_declaration"

def CLASS : String := "class_declaration"

def INTERFACE : String := "interface_declaration"

def METHOD : String := "method_declaration"

def CONSTRUCTOR : String := "constructor_declaration"

def ENUM : String := "enum_declaration"

def ANNOTATION_DECL : String := "annotation_type_declaration"

def CLASS_BODY : String := "class_body"

def INTERFACE_BODY : String := "interface_body"

def IDENTIFIER : String := "identifier"

def PARAMETERS : String := "formal_parameters"

def BLOCK : String := "block"

end NODE_TYPES

def isClassOrInterface (node : SyntaxNode) : Bool :=
  NODE_TYPES.CLASS == node.type || NODE_TYPES.INTERFACE == node.type

def isClassOrInterfaceBody (node : SyntaxNode) : Bool :=
  NODE_TYPES.CLASS_BODY == node.type || NODE_TYPES.INTERFACE_BODY == node.type

def isCollapsedNode (node : SyntaxNode) : Bool :=
  node.type == NODE_TYPES.METHOD

mutual
/-- `findNodeByType`: depth-first pre-order search for the first node of the
given type, the node itself included. -/
def findNodeByType : SyntaxNode → String → Option SyntaxNode
  | n@(.mk _ _ _ _ _ c), t =>
    if n.type == t then some n else findNodeByTypeList c t
def findNodeByTypeList : SyntaxNodeList → String → Option SyntaxNode
  | .nil, _ => none
  | .cons h rest, t =>
    match findNodeByType h t with
    | some r => some r
    | none => findNodeByTypeList rest t
end

/-- The `while (current.parent) current = current.parent` walk of
`getPackageName`: `ancestors` lists the node's proper ancestors from the
immediate parent up to the tree root. -/
def walkToRoot (node : SyntaxNode) : List SyntaxNode → SyntaxNode
  | [] => node
  | p :: ps => walkToRoot p ps

/-- `getPackageName`: walk to the root, search for a package-declaration node,
and clean its text (`.replace("package ", "").replace(";", "").trim()`). -/
def getPackageName (code : List Char) (ancestors : List SyntaxNode)
    (node : SyntaxNode) : List Char :=
  let current := walkToRoot node ancestors
  match findNodeByType current NODE_TYPES.PACKAGE with
  | some packageNode =>
    trimChars (replaceFirst (replaceFirst (nodeText code packageNode)
      "package ".toList) ";".toList)
  | none => []

/-- `getSimpleClassName`: text of the first identifier found by pre-order
search from the node. -/
def getSimpleClassName (code : List Char) (node : SyntaxNode) : List Char :=
  match findNodeByType node NODE_TYPES.IDENTIFIER with
  | some classNameNode => nodeText code classNameNode
  | none => []

/-- `getFullClassName`: package-qualified simple name, prefixed with
`parentClassName + "$"` when a parent name is supplied. -/
def getFullClassName (code : List Char) (ancestors : List SyntaxNode)
    (node : SyntaxNode) (parentClassName : Option (List Char)) : List Char :=
  let packageName := getPackageName code ancestors node
  let className := getSimpleClassName code node
  let fullClassName :=
    if packageName.isEmpty then className else packageName ++ ('.' :: className)
  match parentClassName with
  | some p => p ++ ('$' :: fullClassName)
  | none => fullClassName

/-- `getMethodIdentifier`: `name[startRow-endRow]` built from the method's
direct identifier child; empty when there is none. -/
def getMethodIdentifier (code : List Char) (methodNode : SyntaxNode) : List Char :=
  match childFind (fun child => child.type == NODE_TYPES.IDENTIFIER)
      methodNode.children with
  | none => []
  | some nameNode =>
    nodeText code nameNode ++ ('[' :: (Nat.repr methodNode.startRow).toList)
      ++ ('-' :: (Nat.repr methodNode.endRow).toList) ++ [']']

inductive JavaChunkType where
  | class_definition
  | method_definition
deriving DecidableEq, Repr

/-- A chunk as emitted by `codeChunker` (`JavaChunkWithoutID` in the source):
`methodIdentifier` is `none` exactly when the field is absent in TS. -/
structure JavaChunkWithoutID where
  content : List Char
  startLine : Nat
  endLine : Nat
  methodIdentifier : Option (List Char) := none
  type : JavaChunkType
deriving DecidableEq, Repr

/-- One splice to perform on the class slice; `stop` models the TS field
named `end` (a Lean keyword). -/
structure MethodCollapsed where
  start : Nat
  stop : Nat
  collapsedStr : List Char
deriving DecidableEq, Repr

/-- `collectMethodCollapseds`: the splice for one method node, relative to
`baseOffset`; `none` when the method has no `block` body child. -/
def collectMethodCollapseds (code : List Char) (methodNode : SyntaxNode)
    (baseOffset : Nat) : Option MethodCollapsed :=
  match childFind (fun n => n.type == NODE_TYPES.BLOCK) methodNode.children with
  | none => none
  | some bodyNode =>
    some { start := bodyNode.startIndex - baseOffset,
           stop := bodyNode.endIndex - baseOffset,
           collapsedStr := "\x7b id:".toList
             ++ getMethodIdentifier code methodNode ++ " \x7d".toList }

mutual
/-- `collectMethodCollapsedsRecursively`, with the accumulator turned into a
return value (specs are appended in the same push order). -/
def collectMethodCollapsedsRecursively (code : List Char) (baseOffset : Nat) :
    SyntaxNode → List MethodCollapsed
  | n@(.mk _ _ _ _ _ c) =>
    if isCollapsedNode n then
      match collectMethodCollapseds code n baseOffset with
      | some collapsed => [collapsed]
      | none => []
    else if isClassOrInterfaceBody n then collectOverBodyChildren code baseOffset c
    else collectSearchBody code baseOffset c
/-- The `node.children.find(isClassOrInterfaceBody)` step fused with the
descent into the found body (see `collectSearchBody_eq_childFind`). -/
def collectSearchBody (code : List Char) (baseOffset : Nat) :
    SyntaxNodeList → List MethodCollapsed
  | .nil => []
  | .cons h@(.mk _ _ _ _ _ hc) t =>
    if isClassOrInterfaceBody h then collectOverBodyChildren code baseOffset hc
    else collectSearchBody code baseOffset t
/-- The `for (const child of classBody.children)` loop: recurse into children
that are method declarations or nested class/interface declarations. -/
def collectOverBodyChildren (code : List Char) (baseOffset : Nat) :
    SyntaxNodeList → List MethodCollapsed
  | .nil => []
  | .cons h t =>
    (if h.type == NODE_TYPES.METHOD || isClassOrInterface h then
       collectMethodCollapsedsRecursively code baseOffset h
     else [])
      ++ collectOverBodyChildren code baseOffset t
end

mutual
/-- `chunkMethodRecursively`, as the list of chunks the generator yields. -/
def chunkMethodRecursively (code : List Char) :
    SyntaxNode → List JavaChunkWithoutID
  | n@(.mk _ _ _ _ _ c) =>
    if isCollapsedNode n then
      if n.startRow == n.endRow then []
      else
        [{ content := nodeText code n,
           startLine := n.startRow,
           endLine := n.endRow,
           methodIdentifier := some (getMethodIdentifier code n),
           type := .method_definition }]
    else if isClassOrInterfaceBody n then chunkOverBodyChildren code c
    else chunkSearchBody code c
/-- Fused `children.find(isClassOrInterfaceBody)` + descent
(see `chunkSearchBody_eq_childFind`). -/
def chunkSearchBody (code : List Char) : SyntaxNodeList → List JavaChunkWithoutID
  | .nil => []
  | .cons h@(.mk _ _ _ _ _ hc) t =>
    if isClassOrInterfaceBody h then chunkOverBodyChildren code hc
    else chunkSearchBody code t
/-- The loop over the class body's children. -/
def chunkOverBodyChildren (code : List Char) :
    SyntaxNodeList → List JavaChunkWithoutID
  | .nil => []
  | .cons h t =>
    (if h.type == NODE_TYPES.METHOD || isClassOrInterface h then
       chunkMethodRecursively code h
     else [])
      ++ chunkOverBodyChildren code t
end

/-- Insertion step of the descending-by-`start` sort
(`collapseds.sort((a, b) => b.start - a.start)`). -/
def insertDesc (c : MethodCollapsed) : List MethodCollapsed → List MethodCollapsed
  | [] => [c]
  | d :: rest => if d.start < c.start then c :: d :: rest else d :: insertDesc c rest

/-- Sort the collected splices by `start`, largest first. -/
def sortByStartDesc (l : List MethodCollapsed) : List MethodCollapsed :=
  l.foldr insertDesc []

/-- One splice application:
`modifiedCode.slice(0, start) + collapsedStr + modifiedCode.slice(end)`. -/
def spliceOne (modifiedCode : List Char) (c : MethodCollapsed) : List Char :=
  modifiedCode.take c.start ++ c.collapsedStr ++ modifiedCode.drop c.stop

/-- `collapseMethodBody`: collect the splices for `node` (offsets relative to
`node.startIndex`), sort them bottom-to-top, and apply them in that order to
the passed slice of the source. -/
def collapseMethodBody (code : List Char) (node : SyntaxNode)
    (codeSlice : List Char) : List Char :=
  let collapseds := collectMethodCollapsedsRecursively code node.startIndex node
  (sortByStartDesc collapseds).foldl spliceOne codeSlice

/-- `getCollapsedClassDefinition`: the skeleton chunk for one top-level type. -/
def getCollapsedClassDefinition (code : List Char) (node : SyntaxNode) :
    JavaChunkWithoutID :=
  let modifiedCode :=
    collapseMethodBody code node (strSlice code node.startIndex node.endIndex)
  let importsAndPackage := strSlice code 0 node.startIndex
  { content := importsAndPackage ++ modifiedCode,
    startLine := 0,
    endLine := node.endRow,
    methodIdentifier := none,
    type := .class_definition }

/-- The loop of `codeChunker` over the root's direct children. -/
def chunkTopLevels (contents : List Char) : SyntaxNodeList → List JavaChunkWithoutID
  | .nil => []
  | .cons node rest =>
    (if isClassOrInterface node then
       getCollapsedClassDefinition contents node
         :: chunkMethodRecursively contents node
     else if NODE_TYPES.ENUM == node.type
         || NODE_TYPES.ANNOTATION_DECL == node.type then
       [{ content := contents,
          startLine := node.startRow,
          endLine := node.endRow,
          methodIdentifier := none,
          type := .class_definition }]
     else [])
      ++ chunkTopLevels contents rest

/-- `codeChunker`: the parser selected for the file path is modelled by
`parserOpt` (the result of `getParserForFile`); the emitted chunk sequence is
the `ok` value, and a thrown error the `error` value. -/
def codeChunker (parserOpt : Option (List Char → SyntaxNode))
    (contents : List Char) : Except (List Char) (List JavaChunkWithoutID) :=
  if (trimChars contents).length = 0 then .ok []
  else
    match parserOpt with
    | none => .error "Failed to load parser for file".toList
    | some parse =>
      let root := parse contents
      .ok (chunkTopLevels contents root.children)

/-! ### Specification-side definitions -/

mutual
/-- All nodes of the tree in depth-first pre-order, the node itself first. -/
def allNodes : SyntaxNode → List SyntaxNode
  | n@(.mk _ _ _ _ _ c) => n :: allNodesList c
def allNodesList : SyntaxNodeList → List SyntaxNode
  | .nil => []
  | .cons h t => allNodes h ++ allNodesList t
end

mutual
/-- Row sanity of a tree: every node starts no later than it ends. -/
def rowsWF : SyntaxNode → Bool
  | .mk _ _ _ sr er c => decide (sr ≤ er) && rowsWFList c
def rowsWFList : SyntaxNodeList → Bool
  | .nil => true
  | .cons h t => rowsWF h && rowsWFList t
end

mutual
/-- The method-declaration nodes visited by the chunker's recursive descent
from a type node, in visit (pre-)order. -/
def methodNodesPre : SyntaxNode → List SyntaxNode
  | n@(.mk _ _ _ _ _ c) =>
    if isCollapsedNode n then [n]
    else if isClassOrInterfaceBody n then methodNodesPreOverBody c
    else methodNodesPreSearch c
def methodNodesPreSearch : SyntaxNodeList → List SyntaxNode
  | .nil => []
  | .cons h@(.mk _ _ _ _ _ hc) t =>
    if isClassOrInterfaceBody h then methodNodesPreOverBody hc
    else methodNodesPreSearch t
def methodNodesPreOverBody : SyntaxNodeList → List SyntaxNode
  | .nil => []
  | .cons h t =>
    (if h.type == NODE_TYPES.METHOD || isClassOrInterface h then
       methodNodesPre h
     else [])
      ++ methodNodesPreOverBody t
end

/-- The chunk `chunkMethodRecursively` yields for a (multi-row) method node. -/
def mkMethodChunk (code : List Char) (n : SyntaxNode) : JavaChunkWithoutID :=
  { content := nodeText code n,
    startLine := n.startRow,
    endLine := n.endRow,
    methodIdentifier := some (getMethodIdentifier code n),
    type := .method_definition }

/-- Number of methods the descent visits whose declaration node spans more
than one row (the ones that get a standalone chunk). -/
def countNonSingleLineMethods (n : SyntaxNode) : Nat :=
  ((methodNodesPre n).filter (fun m => !(m.startRow == m.endRow))).length

/-- Forward, cursor-driven rendering of a list of splices over `cs`: keeps the
text outside the spans verbatim and substitutes each span's replacement text.
This is the specification of what the reverse-order splice loop computes. -/
def renderFrom (cs : List Char) (pos : Nat) : List MethodCollapsed → List Char
  | [] => cs.drop pos
  | c :: rest =>
    (cs.drop pos).take (c.start - pos) ++ c.collapsedStr
      ++ renderFrom cs c.stop rest

/-- The splice spans form an ascending chain of non-empty, pairwise disjoint,
in-bounds spans starting at or after `pos`. -/
def chainFromB (pos len : Nat) : List MethodCollapsed → Bool
  | [] => true
  | c :: rest =>
    decide (pos ≤ c.start) && decide (c.start < c.stop) && decide (c.stop ≤ len)
      && chainFromB c.stop len rest

/-! ### Concrete inputs

`exampleA`: a class with a multi-row constructor and a multi-row method,
mirroring the constructor scenario of the repository's own test file.
Offsets and rows are those tree-sitter assigns to the text. -/

def contentsA : List Char :=
  "class A \x7b\nA() \x7b\nx();\n\x7d\nvoid m() \x7b\ny();\n\x7d\n\x7d\n".toList

def ctorBlockA : SyntaxNode := .mk "block" 14 22 1 3 .nil

def ctorA : SyntaxNode :=
  .mk "constructor_declaration" 10 22 1 3
    (.cons (.mk "identifier" 10 11 1 1 .nil)
      (.cons (.mk "formal_parameters" 11 13 1 1 .nil)
        (.cons ctorBlockA .nil)))

def mBlockA : SyntaxNode := .mk "block" 32 40 4 6 .nil

def methodA : SyntaxNode :=
  .mk "method_declaration" 23 40 4 6
    (.cons (.mk "void_type" 23 27 4 4 .nil)
      (.cons (.mk "identifier" 28 29 4 4 .nil)
        (.cons (.mk "formal_parameters" 29 31 4 4 .nil)
          (.cons mBlockA .nil))))

def classBodyA : SyntaxNode :=
  .mk "class_body" 8 42 0 7 (.cons ctorA (.cons methodA .nil))

def classA : SyntaxNode :=
  .mk "class_declaration" 0 42 0 7
    (.cons (.mk "identifier" 6 7 0 0 .nil) (.cons classBodyA .nil))

def rootA : SyntaxNode := .mk "program" 0 43 0 7 (.cons classA .nil)

def parseA : List Char → SyntaxNode := fun _ => rootA

/-- `exampleB`: `package pkg;` with `Outer` containing `Inner` containing
`Deepest`. -/
def contentsB : List Char :=
  "package pkg;\nclass Outer \x7b\nclass Inner \x7b\nclass Deepest \x7b\n\x7d\n\x7d\n\x7d\n".toList

def packageB : SyntaxNode := .mk "package_declaration" 0 12 0 0 .nil

def deepestBodyB : SyntaxNode := .mk "class_body" 55 58 3 4 .nil

def deepestB : SyntaxNode :=
  .mk "class_declaration" 41 58 3 4
    (.cons (.mk "identifier" 47 54 3 3 .nil) (.cons deepestBodyB .nil))

def innerBodyB : SyntaxNode := .mk "class_body" 39 60 2 5 (.cons deepestB .nil)

def innerB : SyntaxNode :=
  .mk "class_declaration" 27 60 2 5
    (.cons (.mk "identifier" 33 38 2 2 .nil) (.cons innerBodyB .nil))

def outerBodyB : SyntaxNode := .mk "class_body" 25 62 1 6 (.cons innerB .nil)

def outerB : SyntaxNode :=
  .mk "class_declaration" 13 62 1 6
    (.cons (.mk "identifier" 19 24 1 1 .nil) (.cons outerBodyB .nil))

def rootB : SyntaxNode :=
  .mk "program" 0 63 0 6 (.cons packageB (.cons outerB .nil))

/-- `exampleE`: a method whose signature spans two rows while its body
`\x7b x(); \x7d` starts and ends on the same row. -/
def contentsE : List Char :=
  "class C \x7b\nvoid\nm() \x7b x(); \x7d\n\x7d\n".toList

def blockE : SyntaxNode := .mk "block" 19 27 2 2 .nil

def methodE : SyntaxNode :=
  .mk "method_declaration" 10 27 1 2
    (.cons (.mk "void_type" 10 14 1 1 .nil)
      (.cons (.mk "identifier" 15 16 2 2 .nil)
        (.cons (.mk "formal_parameters" 16 18 2 2 .nil)
          (.cons blockE .nil))))

def classBodyE : SyntaxNode := .mk "class_body" 8 29 0 3 (.cons methodE .nil)

def classE : SyntaxNode :=
  .mk "class_declaration" 0 29 0 3
    (.cons (.mk "identifier" 6 7 0 0 .nil) (.cons classBodyE .nil))

def rootE : SyntaxNode := .mk "program" 0 30 0 3 (.cons classE .nil)

def parseE : List Char → SyntaxNode := fun _ => rootE

/-- `exampleF`: a tree whose only package-declaration node sits nested inside
a class body, not at root level. -/
def contentsF : List Char :=
  "class D \x7b\npackage p.q;\n\x7d\n".toList

def packageF : SyntaxNode := .mk "package_declaration" 10 22 1 1 .nil

def classBodyF : SyntaxNode := .mk "class_body" 8 24 0 2 (.cons packageF .nil)

def classF : SyntaxNode :=
  .mk "class_declaration" 0 24 0 2
    (.cons (.mk "identifier" 6 7 0 0 .nil) (.cons classBodyF .nil))

def rootF : SyntaxNode := .mk "program" 0 25 0 2 (.cons classF .nil)

/-- `exampleG`: a class with one method and a nested class with another
method, both multi-row. -/
def contentsG : List Char :=
  "class G \x7b\nvoid a() \x7b\nx();\n\x7d\nclass H \x7b\nvoid b() \x7b\ny();\n\x7d\n\x7d\n\x7d\n".toList

def blockAG : SyntaxNode := .mk "block" 19 27 1 3 .nil

def methodAG : SyntaxNode :=
  .mk "method_declaration" 10 27 1 3
    (.cons (.mk "void_type" 10 14 1 1 .nil)
      (.cons (.mk "identifier" 15 16 1 1 .nil)
        (.cons (.mk "formal_parameters" 16 18 1 1 .nil)
          (.cons blockAG .nil))))

def blockBG : SyntaxNode := .mk "block" 47 55 5 7 .nil

def methodBG : SyntaxNode :=
  .mk "method_declaration" 38 55 5 7
    (.cons (.mk "void_type" 38 42 5 5 .nil)
      (.cons (.mk "identifier" 43 44 5 5 .nil)
        (.cons (.mk "formal_parameters" 44 46 5 5 .nil)
          (.cons blockBG .nil))))

def classBodyH : SyntaxNode := .mk "class_body" 36 56 4 8 (.cons methodBG .nil)

def classH : SyntaxNode :=
  .mk "class_declaration" 28 56 4 8
    (.cons (.mk "identifier" 34 35 4 4 .nil) (.cons classBodyH .nil))

def classBodyG : SyntaxNode :=
  .mk "class_body" 8 59 0 9 (.cons methodAG (.cons classH .nil))

def classG : SyntaxNode :=
  .mk "class_declaration" 0 59 0 9
    (.cons (.mk "identifier" 6 7 0 0 .nil) (.cons classBodyG .nil))

def rootG : SyntaxNode := .mk "program" 0 60 0 9 (.cons classG .nil)

def parseG : List Char → SyntaxNode := fun _ => rootG

/-! ### Helper lemmas -/

theorem childFind_mem (p : SyntaxNode → Bool) :
    ∀ (l : SyntaxNodeList) (x : SyntaxNode), childFind p l = some x →
      x ∈ l.toList ∧ p x = true
  | .nil, x, hx => by simp [childFind] at hx
  | .cons h t, x, hx => by
    by_cases hp : p h
    · rw [childFind, if_pos hp] at hx
      cases hx
      exact ⟨by simp [SyntaxNodeList.toList], hp⟩
    · rw [childFind, if_neg hp] at hx
      obtain ⟨hm, hpx⟩ := childFind_mem p t x hx
      exact ⟨by simp [SyntaxNodeList.toList, hm], hpx⟩

mutual
theorem findNodeByType_eq_find? : ∀ (n : SyntaxNode) (t : String),
    findNodeByType n t = (allNodes n).find? (fun d => d.type == t)
  | .mk ty si ei sr er c, t => by
    rw [findNodeByType, allNodes, List.find?_cons]
    by_cases h : (SyntaxNode.mk ty si ei sr er c).type == t
    · rw [if_pos h, h]
    · have h' : ((SyntaxNode.mk ty si ei sr er c).type == t) = false := by
        simpa using h
      rw [if_neg h, h', findNodeByTypeList_eq_find? c t]
theorem findNodeByTypeList_eq_find? : ∀ (l : SyntaxNodeList) (t : String),
    findNodeByTypeList l t = (allNodesList l).find? (fun d => d.type == t)
  | .nil, _ => rfl
  | .cons h rest, t => by
    rw [findNodeByTypeList, allNodesList, List.find?_append,
      ← findNodeByType_eq_find? h t, ← findNodeByTypeList_eq_find? rest t]
    cases findNodeByType h t <;> simp [Option.or]
end

theorem chainFromB_start_le (len : Nat) :
    ∀ (pos : Nat) (l : List MethodCollapsed), chainFromB pos len l = true →
      ∀ d ∈ l, pos ≤ d.start
  | _, [], _, d, hd => absurd hd (List.not_mem_nil d)
  | pos, c :: rest, h, d, hd => by
    rw [chainFromB] at h
    simp only [Bool.and_eq_true, decide_eq_true_eq] at h
    obtain ⟨⟨⟨h1, h2⟩, h3⟩, h4⟩ := h
    rcases List.mem_cons.mp hd with rfl | hd'
    · exact h1
    · exact le_trans (le_trans h1 (Nat.le_of_lt h2))
        (chainFromB_start_le len c.stop rest h4 d hd')

theorem chainFromB_weaken {p len : Nat} {l : List MethodCollapsed}
    (h : chainFromB p len l = true) {q : Nat} (hq : q ≤ p) :
    chainFromB q len l = true := by
  cases l with
  | nil => rfl
  | cons c rest =>
    rw [chainFromB] at h ⊢
    simp only [Bool.and_eq_true, decide_eq_true_eq] at h ⊢
    obtain ⟨⟨⟨h1, h2⟩, h3⟩, h4⟩ := h
    exact ⟨⟨⟨le_trans hq h1, h2⟩, h3⟩, h4⟩

theorem insertDesc_of_le (c : MethodCollapsed) :
    ∀ (l : List MethodCollapsed), (∀ d ∈ l, c.start ≤ d.start) →
      insertDesc c l = l ++ [c]
  | [], _ => rfl
  | d :: rest, h => by
    have hd : c.start ≤ d.start := h d (List.mem_cons_self d rest)
    rw [insertDesc, if_neg (Nat.not_lt.mpr hd),
      insertDesc_of_le c rest (fun e he => h e (List.mem_cons_of_mem d he))]
    simp

theorem sortByStartDesc_of_chain (len : Nat) :
    ∀ (pos : Nat) (l : List MethodCollapsed), chainFromB pos len l = true →
      sortByStartDesc l = l.reverse
  | _, [], _ => rfl
  | pos, c :: rest, h => by
    rw [chainFromB] at h
    simp only [Bool.and_eq_true, decide_eq_true_eq] at h
    obtain ⟨⟨⟨h1, h2⟩, h3⟩, h4⟩ := h
    have ih : sortByStartDesc rest = rest.reverse :=
      sortByStartDesc_of_chain len c.stop rest h4
    show insertDesc c (List.foldr insertDesc [] rest) = (c :: rest).reverse
    rw [show List.foldr insertDesc [] rest = sortByStartDesc rest from rfl, ih,
      insertDesc_of_le c rest.reverse (fun d hd =>
        le_trans (Nat.le_of_lt h2)
          (chainFromB_start_le len c.stop rest h4 d (List.mem_reverse.mp hd)))]
    simp

theorem take_renderFrom (cs : List Char) (l : List MethodCollapsed) (q s : Nat)
    (hchain : chainFromB q cs.length l = true) (hs : s ≤ q)
    (hslen : s ≤ cs.length) :
    (renderFrom cs 0 l).take s = cs.take s := by
  cases l with
  | nil => simp [renderFrom]
  | cons d ds =>
    rw [chainFromB] at hchain
    simp only [Bool.and_eq_true, decide_eq_true_eq] at hchain
    obtain ⟨⟨⟨h1, h2⟩, h3⟩, h4⟩ := hchain
    have hsd : s ≤ d.start := le_trans hs h1
    rw [renderFrom]
    simp only [List.drop_zero, Nat.sub_zero]
    rw [List.append_assoc, List.take_append_eq_append_take, List.take_take]
    have hlen : s ≤ (cs.take d.start).length := by
      simp only [List.length_take]
      exact le_min hsd hslen
    rw [Nat.sub_eq_zero_of_le hlen, List.take_zero, List.append_nil,
      min_eq_left hsd]

theorem drop_renderFrom (cs : List Char) (l : List MethodCollapsed) (q : Nat)
    (hchain : chainFromB q cs.length l = true) :
    (renderFrom cs 0 l).drop q = renderFrom cs q l := by
  cases l with
  | nil => simp [renderFrom]
  | cons d ds =>
    rw [chainFromB] at hchain
    simp only [Bool.and_eq_true, decide_eq_true_eq] at hchain
    obtain ⟨⟨⟨h1, h2⟩, h3⟩, h4⟩ := hchain
    have hdlen : d.start ≤ cs.length := le_trans (Nat.le_of_lt h2) h3
    rw [renderFrom, renderFrom]
    simp only [List.drop_zero, Nat.sub_zero]
    have hlen : (cs.take d.start).length = d.start := by
      simp only [List.length_take]
      exact min_eq_left hdlen
    rw [List.append_assoc, List.drop_append_eq_append_drop, hlen,
      Nat.sub_eq_zero_of_le h1, List.drop_zero, List.drop_take,
      List.append_assoc]

theorem foldr_splice_renders (cs : List Char) :
    ∀ (l : List MethodCollapsed), chainFromB 0 cs.length l = true →
      l.foldr (fun sp acc => spliceOne acc sp) cs = renderFrom cs 0 l
  | [], _ => by simp [renderFrom]
  | c :: rest, h => by
    rw [chainFromB] at h
    simp only [Bool.and_eq_true, decide_eq_true_eq] at h
    obtain ⟨⟨⟨h1, h2⟩, h3⟩, h4⟩ := h
    have ih := foldr_splice_renders cs rest
      (chainFromB_weaken h4 (Nat.zero_le c.stop))
    rw [List.foldr_cons, ih]
    show spliceOne (renderFrom cs 0 rest) c = renderFrom cs 0 (c :: rest)
    rw [spliceOne,
      take_renderFrom cs rest c.stop c.start h4 (Nat.le_of_lt h2)
        (le_trans (Nat.le_of_lt h2) h3),
      drop_renderFrom cs rest c.stop h4, renderFrom]
    simp only [List.drop_zero, Nat.sub_zero, List.append_assoc]

theorem collapse_applied_renders (cs : List Char) (l : List MethodCollapsed)
    (h : chainFromB 0 cs.length l = true) :
    (sortByStartDesc l).foldl spliceOne cs = renderFrom cs 0 l := by
  rw [sortByStartDesc_of_chain cs.length 0 l h, List.foldl_reverse]
  exact foldr_splice_renders cs l h

mutual
theorem chunkMethodRecursively_eq_methodNodes :
    ∀ (code : List Char) (n : SyntaxNode),
      chunkMethodRecursively code n =
        ((methodNodesPre n).filter (fun m => !(m.startRow == m.endRow))).map
          (mkMethodChunk code)
  | code, .mk ty si ei sr er c => by
    rw [chunkMethodRecursively, methodNodesPre]
    by_cases hm : isCollapsedNode (.mk ty si ei sr er c)
    · rw [if_pos hm, if_pos hm]
      by_cases hr : ((SyntaxNode.mk ty si ei sr er c).startRow
          == (SyntaxNode.mk ty si ei sr er c).endRow) = true
      · rw [if_pos hr]
        simp [List.filter_cons, hr]
      · have hr' := Bool.not_eq_true _ |>.mp hr
        rw [if_neg hr]
        simp [List.filter_cons, hr', mkMethodChunk]
    · rw [if_neg hm, if_neg hm]
      by_cases hb : isClassOrInterfaceBody (.mk ty si ei sr er c)
      · rw [if_pos hb, if_pos hb]
        exact chunkOverBody_eq_methodNodes code c
      · rw [if_neg hb, if_neg hb]
        exact chunkSearchBody_eq_methodNodes code c
theorem chunkSearchBody_eq_methodNodes :
    ∀ (code : List Char) (l : SyntaxNodeList),
      chunkSearchBody code l =
        ((methodNodesPreSearch l).filter (fun m => !(m.startRow == m.endRow))).map
          (mkMethodChunk code)
  | _, .nil => rfl
  | code, .cons (.mk ty si ei sr er hc) t => by
    rw [chunkSearchBody, methodNodesPreSearch]
    by_cases hb : isClassOrInterfaceBody (.mk ty si ei sr er hc)
    · rw [if_pos hb, if_pos hb]
      exact chunkOverBody_eq_methodNodes code hc
    · rw [if_neg hb, if_neg hb]
      exact chunkSearchBody_eq_methodNodes code t
theorem chunkOverBody_eq_methodNodes :
    ∀ (code : List Char) (l : SyntaxNodeList),
      chunkOverBodyChildren code l =
        ((methodNodesPreOverBody l).filter
          (fun m => !(m.startRow == m.endRow))).map (mkMethodChunk code)
  | _, .nil => rfl
  | code, .cons h t => by
    rw [chunkOverBodyChildren, methodNodesPreOverBody, List.filter_append,
      List.map_append]
    by_cases hc : (h.type == NODE_TYPES.METHOD || isClassOrInterface h) = true
    · rw [if_pos hc, if_pos hc, chunkMethodRecursively_eq_methodNodes code h,
        chunkOverBody_eq_methodNodes code t]
    · rw [if_neg hc, if_neg hc, chunkOverBody_eq_methodNodes code t]
      simp
end

/-- The fused search step agrees with the source's
`children.find(isClassOrInterfaceBody)` followed by the loop over the found
body's children. -/
theorem collectSearchBody_eq_childFind (code : List Char) (baseOffset : Nat) :
    ∀ (l : SyntaxNodeList),
      collectSearchBody code baseOffset l =
        match childFind isClassOrInterfaceBody l with
        | some cb => collectOverBodyChildren code baseOffset cb.children
        | none => []
  | .nil => rfl
  | .cons (.mk ty si ei sr er hc) t => by
    rw [collectSearchBody, childFind]
    by_cases hb : isClassOrInterfaceBody (.mk ty si ei sr er hc)
    · rw [if_pos hb, if_pos hb]
      rfl
    · rw [if_neg hb, if_neg hb]
      exact collectSearchBody_eq_childFind code baseOffset t

/-- Same agreement for the chunk-emission side. -/
theorem chunkSearchBody_eq_childFind (code : List Char) :
    ∀ (l : SyntaxNodeList),
      chunkSearchBody code l =
        match childFind isClassOrInterfaceBody l with
        | some cb => chunkOverBodyChildren code cb.children
        | none => []
  | .nil => rfl
  | .cons (.mk ty si ei sr er hc) t => by
    rw [chunkSearchBody, childFind]
    by_cases hb : isClassOrInterfaceBody (.mk ty si ei sr er hc)
    · rw [if_pos hb, if_pos hb]
      rfl
    · rw [if_neg hb, if_neg hb]
      exact chunkSearchBody_eq_childFind code t

/-- List-valued mirror of the `codeChunker` loop over the root's children. -/
def chunkTopLevelsL (contents : List Char) : List SyntaxNode → List JavaChunkWithoutID
  | [] => []
  | node :: rest =>
    (if isClassOrInterface node then
       getCollapsedClassDefinition contents node
         :: chunkMethodRecursively contents node
     else if NODE_TYPES.ENUM == node.type
         || NODE_TYPES.ANNOTATION_DECL == node.type then
       [{ content := contents,
          startLine := node.startRow,
          endLine := node.endRow,
          methodIdentifier := none,
          type := .class_definition }]
     else [])
      ++ chunkTopLevelsL contents rest

theorem chunkTopLevels_eq_toList (contents : List Char) :
    ∀ (l : SyntaxNodeList),
      chunkTopLevels contents l = chunkTopLevelsL contents l.toList
  | .nil => rfl
  | .cons h t => by
    rw [chunkTopLevels, SyntaxNodeList.toList, chunkTopLevelsL,
      chunkTopLevels_eq_toList contents t]

/-- A root child that triggers none of the emission branches. -/
def isInertTopLevel (n : SyntaxNode) : Bool :=
  !(isClassOrInterface n) && !(NODE_TYPES.ENUM == n.type)
    && !(NODE_TYPES.ANNOTATION_DECL == n.type)

theorem chunkTopLevelsL_inert (contents : List Char) :
    ∀ (l : List SyntaxNode), (∀ n ∈ l, isInertTopLevel n = true) →
      chunkTopLevelsL contents l = []
  | [], _ => rfl
  | h :: t, hin => by
    have hh := hin h (List.mem_cons_self h t)
    rw [isInertTopLevel] at hh
    simp only [Bool.and_eq_true, Bool.not_eq_true'] at hh
    obtain ⟨⟨h1, h2⟩, h3⟩ := hh
    rw [chunkTopLevelsL, if_neg (by simp [h1]), if_neg (by simp [h2, h3]),
      List.nil_append]
    exact chunkTopLevelsL_inert contents t
      (fun n hn => hin n (List.mem_cons_of_mem h hn))

theorem chunkTopLevelsL_single (contents : List Char) (node : SyntaxNode)
    (hcls : isClassOrInterface node = true) :
    ∀ (pre : List SyntaxNode) (post : List SyntaxNode),
      (∀ n ∈ pre, isInertTopLevel n = true) →
      (∀ n ∈ post, isInertTopLevel n = true) →
      chunkTopLevelsL contents (pre ++ node :: post) =
        getCollapsedClassDefinition contents node
          :: chunkMethodRecursively contents node
  | [], post, _, hpost => by
    rw [List.nil_append, chunkTopLevelsL, if_pos hcls,
      chunkTopLevelsL_inert contents post hpost]
    simp
  | h :: pre', post, hpre, hpost => by
    have hh := hpre h (List.mem_cons_self h pre')
    rw [isInertTopLevel] at hh
    simp only [Bool.and_eq_true, Bool.not_eq_true'] at hh
    obtain ⟨⟨h1, h2⟩, h3⟩ := hh
    rw [List.cons_append, chunkTopLevelsL, if_neg (by simp [h1]),
      if_neg (by simp [h2, h3]), List.nil_append]
    exact chunkTopLevelsL_single contents node hcls pre' post
      (fun n hn => hpre n (List.mem_cons_of_mem h hn)) hpost

theorem codeChunker_ok (parse : List Char → SyntaxNode) (contents : List Char)
    (h : trimChars contents ≠ []) :
    codeChunker (some parse) contents =
      .ok (chunkTopLevels contents (parse contents).children) := by
  rw [codeChunker, if_neg (by simpa [List.length_eq_zero] using h)]

theorem mem_allNodes_self : ∀ (n : SyntaxNode), n ∈ allNodes n
  | .mk ty si ei sr er c => by
    rw [allNodes]
    exact List.mem_cons_self _ _

/-- `sp` is the placeholder splice of method node `m`: it covers the byte span
of a `block` body child of `m`, shifted by `base`, and its replacement text is
`\x7b id:` + method identifier + ` \x7d`. -/
def isBodySpec (code : List Char) (base : Nat) (sp : MethodCollapsed)
    (m : SyntaxNode) : Prop :=
  isCollapsedNode m = true ∧
    ∃ b ∈ m.children.toList, b.type = NODE_TYPES.BLOCK ∧
      sp.start = b.startIndex - base ∧ sp.stop = b.endIndex - base ∧
      sp.collapsedStr =
        "\x7b id:".toList ++ getMethodIdentifier code m ++ " \x7d".toList

mutual
theorem collect_sound :
    ∀ (code : List Char) (base : Nat) (n : SyntaxNode),
      ∀ sp ∈ collectMethodCollapsedsRecursively code base n,
        ∃ m ∈ allNodes n, isBodySpec code base sp m
  | code, base, .mk ty si ei sr er c, sp, hsp => by
    rw [collectMethodCollapsedsRecursively] at hsp
    by_cases hm : isCollapsedNode (.mk ty si ei sr er c)
    · rw [if_pos hm] at hsp
      refine ⟨.mk ty si ei sr er c, mem_allNodes_self _, hm, ?_⟩
      rw [collectMethodCollapseds] at hsp
      rcases hfind : childFind (fun n => n.type == NODE_TYPES.BLOCK)
          (SyntaxNode.mk ty si ei sr er c).children with _ | b
      · rw [hfind] at hsp
        simp at hsp
      · rw [hfind] at hsp
        simp only [List.mem_singleton] at hsp
        obtain ⟨hbmem, hbp⟩ := childFind_mem _ _ _ hfind
        exact ⟨b, hbmem, by simpa using hbp, by rw [hsp], by rw [hsp],
          by rw [hsp]⟩
    · rw [if_neg hm] at hsp
      by_cases hb : isClassOrInterfaceBody (.mk ty si ei sr er c)
      · rw [if_pos hb] at hsp
        obtain ⟨m, hmem, hspec⟩ := collect_sound_over code base c sp hsp
        exact ⟨m, by rw [allNodes]; exact List.mem_cons_of_mem _ hmem, hspec⟩
      · rw [if_neg hb] at hsp
        obtain ⟨m, hmem, hspec⟩ := collect_sound_search code base c sp hsp
        exact ⟨m, by rw [allNodes]; exact List.mem_cons_of_mem _ hmem, hspec⟩
theorem collect_sound_search :
    ∀ (code : List Char) (base : Nat) (l : SyntaxNodeList),
      ∀ sp ∈ collectSearchBody code base l,
        ∃ m ∈ allNodesList l, isBodySpec code base sp m
  | _, _, .nil, sp, hsp => absurd hsp (by rw [collectSearchBody]; simp)
  | code, base, .cons (.mk ty si ei sr er hc) t, sp, hsp => by
    rw [collectSearchBody] at hsp
    by_cases hb : isClassOrInterfaceBody (.mk ty si ei sr er hc)
    · rw [if_pos hb] at hsp
      obtain ⟨m, hmem, hspec⟩ := collect_sound_over code base hc sp hsp
      refine ⟨m, ?_, hspec⟩
      rw [allNodesList]
      exact List.mem_append_left _
        (by rw [allNodes]; exact List.mem_cons_of_mem _ hmem)
    · rw [if_neg hb] at hsp
      obtain ⟨m, hmem, hspec⟩ := collect_sound_search code base t sp hsp
      refine ⟨m, ?_, hspec⟩
      rw [allNodesList]
      exact List.mem_append_right _ hmem
theorem collect_sound_over :
    ∀ (code : List Char) (base : Nat) (l : SyntaxNodeList),
      ∀ sp ∈ collectOverBodyChildren code base l,
        ∃ m ∈ allNodesList l, isBodySpec code base sp m
  | _, _, .nil, sp, hsp => absurd hsp (by rw [collectOverBodyChildren]; simp)
  | code, base, .cons h t, sp, hsp => by
    rw [collectOverBodyChildren] at hsp
    rcases List.mem_append.mp hsp with h1 | h2
    · by_cases hcnd : (h.type == NODE_TYPES.METHOD || isClassOrInterface h) = true
      · rw [if_pos hcnd] at h1
        obtain ⟨m, hmem, hspec⟩ := collect_sound code base h sp h1
        refine ⟨m, ?_, hspec⟩
        rw [allNodesList]
        exact List.mem_append_left _ hmem
      · rw [if_neg hcnd] at h1
        exact absurd h1 (List.not_mem_nil sp)
    · obtain ⟨m, hmem, hspec⟩ := collect_sound_over code base t sp h2
      refine ⟨m, ?_, hspec⟩
      rw [allNodesList]
      exact List.mem_append_right _ hmem
end

/-- The two field invariants of an emitted chunk. -/
def chunkInvariant (ch : JavaChunkWithoutID) : Prop :=
  (ch.type = .method_definition →
    ch.startLine < ch.endLine ∧ ch.methodIdentifier.isSome = true) ∧
  (ch.type = .class_definition →
    ch.startLine ≤ ch.endLine ∧ ch.methodIdentifier = none)

mutual
theorem chunkMethod_invariant :
    ∀ (code : List Char) (n : SyntaxNode), rowsWF n = true →
      ∀ ch ∈ chunkMethodRecursively code n, chunkInvariant ch
  | code, .mk ty si ei sr er c, hwf, ch, hch => by
    rw [rowsWF, Bool.and_eq_true, decide_eq_true_eq] at hwf
    rw [chunkMethodRecursively] at hch
    by_cases hm : isCollapsedNode (.mk ty si ei sr er c)
    · rw [if_pos hm] at hch
      by_cases hr : ((SyntaxNode.mk ty si ei sr er c).startRow
          == (SyntaxNode.mk ty si ei sr er c).endRow) = true
      · rw [if_pos hr] at hch
        exact absurd hch (List.not_mem_nil ch)
      · rw [if_neg hr] at hch
        simp only [List.mem_singleton] at hch
        subst hch
        constructor
        · intro _
          refine ⟨?_, rfl⟩
          have hne : sr ≠ er := by
            simpa [SyntaxNode.startRow, SyntaxNode.endRow] using hr
          exact Nat.lt_of_le_of_ne hwf.1 hne
        · intro habs
          simp at habs
    · rw [if_neg hm] at hch
      by_cases hb : isClassOrInterfaceBody (.mk ty si ei sr er c)
      · rw [if_pos hb] at hch
        exact chunkOverBody_invariant code c hwf.2 ch hch
      · rw [if_neg hb] at hch
        exact chunkSearchBody_invariant code c hwf.2 ch hch
theorem chunkSearchBody_invariant :
    ∀ (code : List Char) (l : SyntaxNodeList), rowsWFList l = true →
      ∀ ch ∈ chunkSearchBody code l, chunkInvariant ch
  | _, .nil, _, ch, hch => absurd hch (by rw [chunkSearchBody]; simp)
  | code, .cons (.mk ty si ei sr er hc) t, hwf, ch, hch => by
    rw [rowsWFList, Bool.and_eq_true] at hwf
    rw [chunkSearchBody] at hch
    by_cases hb : isClassOrInterfaceBody (.mk ty si ei sr er hc)
    · rw [if_pos hb] at hch
      have hwf' : rowsWFList hc = true := by
        have := hwf.1
        rw [rowsWF, Bool.and_eq_true] at this
        exact this.2
      exact chunkOverBody_invariant code hc hwf' ch hch
    · rw [if_neg hb] at hch
      exact chunkSearchBody_invariant code t hwf.2 ch hch
theorem chunkOverBody_invariant :
    ∀ (code : List Char) (l : SyntaxNodeList), rowsWFList l = true →
      ∀ ch ∈ chunkOverBodyChildren code l, chunkInvariant ch
  | _, .nil, _, ch, hch => absurd hch (by rw [chunkOverBodyChildren]; simp)
  | code, .cons h t, hwf, ch, hch => by
    rw [rowsWFList, Bool.and_eq_true] at hwf
    rw [chunkOverBodyChildren] at hch
    rcases List.mem_append.mp hch with h1 | h2
    · by_cases hcnd : (h.type == NODE_TYPES.METHOD || isClassOrInterface h) = true
      · rw [if_pos hcnd] at h1
        exact chunkMethod_invariant code h hwf.1 ch h1
      · rw [if_neg hcnd] at h1
        exact absurd h1 (List.not_mem_nil ch)
    · exact chunkOverBody_invariant code t hwf.2 ch h2
end

theorem chunkTopLevels_invariant :
    ∀ (contents : List Char) (l : SyntaxNodeList), rowsWFList l = true →
      ∀ ch ∈ chunkTopLevels contents l, chunkInvariant ch
  | _, .nil, _, ch, hch => absurd hch (by rw [chunkTopLevels]; simp)
  | contents, .cons h t, hwf, ch, hch => by
    rw [rowsWFList, Bool.and_eq_true] at hwf
    rw [chunkTopLevels] at hch
    rcases List.mem_append.mp hch with h1 | h2
    · by_cases hcls : isClassOrInterface h = true
      · rw [if_pos hcls] at h1
        rcases List.mem_cons.mp h1 with rfl | h1'
        · constructor
          · intro habs
            simp [getCollapsedClassDefinition] at habs
          · intro _
            exact ⟨Nat.zero_le _, rfl⟩
        · exact chunkMethod_invariant contents h hwf.1 ch h1'
      · rw [if_neg hcls] at h1
        by_cases hen : (NODE_TYPES.ENUM == h.type
            || NODE_TYPES.ANNOTATION_DECL == h.type) = true
        · rw [if_pos hen] at h1
          simp only [List.mem_singleton] at h1
          subst h1
          constructor
          · intro habs
            simp at habs
          · intro _
            refine ⟨?_, rfl⟩
            rcases h with ⟨ty, si, ei, sr, er, c⟩
            have := hwf.1
            rw [rowsWF, Bool.and_eq_true, decide_eq_true_eq] at this
            exact this.1
        · rw [if_neg hen] at h1
          exact absurd h1 (List.not_mem_nil ch)
    · exact chunkTopLevels_invariant contents t hwf.2 ch h2

mutual
theorem collect_eq_methodNodes :
    ∀ (code : List Char) (base : Nat) (n : SyntaxNode),
      collectMethodCollapsedsRecursively code base n =
        (methodNodesPre n).filterMap
          (fun m => collectMethodCollapseds code m base)
  | code, base, .mk ty si ei sr er c => by
    rw [collectMethodCollapsedsRecursively, methodNodesPre]
    by_cases hm : isCollapsedNode (.mk ty si ei sr er c)
    · rw [if_pos hm, if_pos hm]
      cases hcc : collectMethodCollapseds code (.mk ty si ei sr er c) base <;>
        simp [List.filterMap_cons, hcc]
    · rw [if_neg hm, if_neg hm]
      by_cases hb : isClassOrInterfaceBody (.mk ty si ei sr er c)
      · rw [if_pos hb, if_pos hb]
        exact collect_eq_methodNodes_over code base c
      · rw [if_neg hb, if_neg hb]
        exact collect_eq_methodNodes_search code base c
theorem collect_eq_methodNodes_search :
    ∀ (code : List Char) (base : Nat) (l : SyntaxNodeList),
      collectSearchBody code base l =
        (methodNodesPreSearch l).filterMap
          (fun m => collectMethodCollapseds code m base)
  | _, _, .nil => rfl
  | code, base, .cons (.mk ty si ei sr er hc) t => by
    rw [collectSearchBody, methodNodesPreSearch]
    by_cases hb : isClassOrInterfaceBody (.mk ty si ei sr er hc)
    · rw [if_pos hb, if_pos hb]
      exact collect_eq_methodNodes_over code base hc
    · rw [if_neg hb, if_neg hb]
      exact collect_eq_methodNodes_search code base t
theorem collect_eq_methodNodes_over :
    ∀ (code : List Char) (base : Nat) (l : SyntaxNodeList),
      collectOverBodyChildren code base l =
        (methodNodesPreOverBody l).filterMap
          (fun m => collectMethodCollapseds code m base)
  | _, _, .nil => rfl
  | code, base, .cons h t => by
    rw [collectOverBodyChildren, methodNodesPreOverBody, List.filterMap_append]
    by_cases hcnd : (h.type == NODE_TYPES.METHOD || isClassOrInterface h) = true
    · rw [if_pos hcnd, if_pos hcnd, collect_eq_methodNodes code base h,
        collect_eq_methodNodes_over code base t]
    · rw [if_neg hcnd, if_neg hcnd, collect_eq_methodNodes_over code base t]
      simp
end

/-! ### Claim theorems -/

def skeletonChunkA : JavaChunkWithoutID :=
  { content :=
      "class A \x7b\nA() \x7b\nx();\n\x7d\nvoid m() \x7b id:m[4-6] \x7d\n\x7d".toList,
    startLine := 0, endLine := 7, methodIdentifier := none,
    type := .class_definition }

def methodChunkA : JavaChunkWithoutID :=
  { content := "void m() \x7b\ny();\n\x7d".toList, startLine := 4, endLine := 6,
    methodIdentifier := some "m[4-6]".toList, type := .method_definition }

/-- Claim C1: on a chunked top-level class containing a multi-row constructor
with a body (`exampleA`), `codeChunker` emits NO standalone chunk for the
constructor, and the constructor body survives uncollapsed in the skeleton:
the collapse set holds only the ordinary method's placeholder.  This refutes
the claim (and the repository's own test, which expects constructor chunks):
the recursive descent only follows `method_declaration` children. -/
theorem C1_constructor_not_chunked :
    codeChunker (some parseA) contentsA = .ok [skeletonChunkA, methodChunkA] ∧
    List.IsInfix (nodeText contentsA ctorBlockA)
      (getCollapsedClassDefinition contentsA classA).content ∧
    collectMethodCollapsedsRecursively contentsA classA.startIndex classA =
      [{ start := 32, stop := 40,
         collapsedStr := "\x7b id:m[4-6] \x7d".toList }] :=
  ⟨rfl,
    ⟨"class A \x7b\nA() ".toList,
      "\nvoid m() \x7b id:m[4-6] \x7d\n\x7d".toList, rfl⟩,
    rfl⟩

/-- Claim C2 (amended): when a parent qualified name is supplied, the result
is `parentQualifiedName + "$" + (package-qualified leaf)`, so the package
prefix recurs before every nested component: top-down resolution of
`exampleB` yields `pkg.Outer`, `pkg.Outer$pkg.Inner`,
`pkg.Outer$pkg.Inner$pkg.Deepest`. -/
theorem C2_nested_name_repeats_package :
    (∀ (code : List Char) (anc : List SyntaxNode) (node : SyntaxNode)
        (p : List Char),
      getFullClassName code anc node (some p) =
        p ++ '$' :: getFullClassName code anc node none) ∧
    getFullClassName contentsB [rootB] outerB none = "pkg.Outer".toList ∧
    getFullClassName contentsB [outerBodyB, outerB, rootB] innerB
        (some "pkg.Outer".toList) = "pkg.Outer$pkg.Inner".toList ∧
    getFullClassName contentsB [innerBodyB, innerB, outerBodyB, outerB, rootB]
        deepestB (some "pkg.Outer$pkg.Inner".toList) =
      "pkg.Outer$pkg.Inner$pkg.Deepest".toList :=
  ⟨fun _ _ _ _ => rfl, rfl, rfl, rfl⟩

/-- Claim C2 counterexample: resolving `Inner` under the already-resolved
parent `pkg.Outer` does not give `pkg.Outer$Inner` (single package prefix)
but `pkg.Outer$pkg.Inner`. -/
theorem C2_counterexample :
    getFullClassName contentsB [outerBodyB, outerB, rootB] innerB
        (some "pkg.Outer".toList) ≠ "pkg.Outer$Inner".toList := by
  decide

/-- Claim C3 counterexample: on `exampleA`, the single top-level class holds
two multi-row members with bodies (one constructor, one method), so the claim
(counting constructors) predicts 3 chunks; the code emits 2. -/
theorem C3_counterexample :
    isClassOrInterface classA = true ∧
    rootA.children.toList = [classA] ∧
    ctorA.type = NODE_TYPES.CONSTRUCTOR ∧
    ctorA.startRow ≠ ctorA.endRow ∧
    (codeChunker (some parseA) contentsA).toOption.map List.length = some 2 := by
  exact ⟨rfl, rfl, rfl, by decide, rfl⟩

/-- Claim C3 (amended): for a file whose root children are one class/interface
declaration plus only inert nodes, the output is exactly the skeleton chunk
followed by one `method_definition` chunk per visited multi-row
`method_declaration` (constructors excluded — they are never visited), in
visit (pre-)order, hence `1 + k` chunks. -/
theorem C3_one_type_chunk_count (parse : List Char → SyntaxNode)
    (contents : List Char) (node : SyntaxNode) (pre post : List SyntaxNode)
    (hch : (parse contents).children.toList = pre ++ node :: post)
    (hpre : ∀ n ∈ pre, isInertTopLevel n = true)
    (hpost : ∀ n ∈ post, isInertTopLevel n = true)
    (hcls : isClassOrInterface node = true)
    (htrim : trimChars contents ≠ []) :
    codeChunker (some parse) contents = .ok
      (getCollapsedClassDefinition contents node ::
        ((methodNodesPre node).filter (fun m => !(m.startRow == m.endRow))).map
          (mkMethodChunk contents)) ∧
    (getCollapsedClassDefinition contents node ::
        ((methodNodesPre node).filter (fun m => !(m.startRow == m.endRow))).map
          (mkMethodChunk contents)).length =
      1 + countNonSingleLineMethods node := by
  have h1 := codeChunker_ok parse contents htrim
  rw [chunkTopLevels_eq_toList, hch,
    chunkTopLevelsL_single contents node hcls pre post hpre hpost,
    chunkMethodRecursively_eq_methodNodes] at h1
  refine ⟨h1, ?_⟩
  simp [countNonSingleLineMethods, Nat.add_comm]

/-- Claim C3 witness: `exampleG` (a class with one method plus a nested class
with another method) produces the skeleton and two method chunks. -/
theorem C3_one_type_chunk_count_witness :
    (parseG contentsG).children.toList = [] ++ classG :: [] ∧
    isClassOrInterface classG = true ∧ trimChars contentsG ≠ [] ∧
    (codeChunker (some parseG) contentsG = .ok
      (getCollapsedClassDefinition contentsG classG ::
        ((methodNodesPre classG).filter
          (fun m => !(m.startRow == m.endRow))).map (mkMethodChunk contentsG)) ∧
    (getCollapsedClassDefinition contentsG classG ::
        ((methodNodesPre classG).filter
          (fun m => !(m.startRow == m.endRow))).map
          (mkMethodChunk contentsG)).length =
      1 + countNonSingleLineMethods classG) :=
  ⟨rfl, rfl, by decide,
    C3_one_type_chunk_count parseG contentsG classG [] [] rfl (by simp)
      (by simp) rfl (by decide)⟩

/-- Claim C4: the skeleton chunk for a type node is the text before the node
followed by the forward rendering of the node's slice with each collected
body span replaced by its placeholder; `startLine = 0`,
`endLine` = the node's end row, `type = class_definition`.  The collection is
complete and sound: the collected splices are exactly the body specs, in
visit order, of the method nodes the recursive descent visits (the same
`methodNodesPre` visit list as the chunk emission), so every visited method
that has a `block` body child has its body replaced by its placeholder; and
every collected splice is the placeholder of a `block` body child of a
descendant method node.  The chain hypothesis states the collected spans are
non-empty, pairwise disjoint, in document order and in bounds, which holds
for every well-formed tree. -/
theorem C4_skeleton_content (code : List Char) (node : SyntaxNode)
    (hchain : chainFromB 0
        (strSlice code node.startIndex node.endIndex).length
        (collectMethodCollapsedsRecursively code node.startIndex node)
        = true) :
    getCollapsedClassDefinition code node =
      { content := strSlice code 0 node.startIndex ++
          renderFrom (strSlice code node.startIndex node.endIndex) 0
            (collectMethodCollapsedsRecursively code node.startIndex node),
        startLine := 0,
        endLine := node.endRow,
        methodIdentifier := none,
        type := .class_definition } ∧
    collectMethodCollapsedsRecursively code node.startIndex node =
      (methodNodesPre node).filterMap
        (fun m => collectMethodCollapseds code m node.startIndex) ∧
    (∀ m ∈ methodNodesPre node, ∀ sp,
      collectMethodCollapseds code m node.startIndex = some sp →
        sp ∈ collectMethodCollapsedsRecursively code node.startIndex node) ∧
    ∀ sp ∈ collectMethodCollapsedsRecursively code node.startIndex node,
      ∃ m ∈ allNodes node, isBodySpec code node.startIndex sp m := by
  refine ⟨?_, collect_eq_methodNodes code node.startIndex node, ?_,
    fun sp hsp => collect_sound code node.startIndex node sp hsp⟩
  · simp only [getCollapsedClassDefinition, collapseMethodBody]
    rw [collapse_applied_renders _ _ hchain]
  · intro m hm sp hsp
    rw [collect_eq_methodNodes code node.startIndex node]
    exact List.mem_filterMap.mpr ⟨m, hm, hsp⟩

/-- Claim C4 witness: the chain hypothesis holds on `exampleG`, the skeleton
chunk is the rendered form, and the collected splices are exactly the body
specs of the visited methods. -/
theorem C4_skeleton_content_witness :
    chainFromB 0 (strSlice contentsG classG.startIndex classG.endIndex).length
        (collectMethodCollapsedsRecursively contentsG classG.startIndex classG)
        = true ∧
    getCollapsedClassDefinition contentsG classG =
      { content := strSlice contentsG 0 classG.startIndex ++
          renderFrom (strSlice contentsG classG.startIndex classG.endIndex) 0
            (collectMethodCollapsedsRecursively contentsG classG.startIndex
              classG),
        startLine := 0,
        endLine := classG.endRow,
        methodIdentifier := none,
        type := .class_definition } ∧
    collectMethodCollapsedsRecursively contentsG classG.startIndex classG =
      (methodNodesPre classG).filterMap
        (fun m => collectMethodCollapseds contentsG m classG.startIndex) :=
  ⟨by decide, (C4_skeleton_content contentsG classG (by decide)).1,
    (C4_skeleton_content contentsG classG (by decide)).2.1⟩

/-- Claim C5 counterexample: `exampleE`'s method has its body braces on one
row (`blockE` spans rows 2-2) while the signature starts on row 1; the claim
says no standalone chunk is emitted, but `codeChunker` does emit one. -/
theorem C5_counterexample :
    blockE.startRow = blockE.endRow ∧
    codeChunker (some parseE) contentsE = .ok
      [{ content := "class C \x7b\nvoid\nm() \x7b id:m[1-2] \x7d\n\x7d".toList,
         startLine := 0, endLine := 3, methodIdentifier := none,
         type := .class_definition },
       { content := "void\nm() \x7b x(); \x7d".toList, startLine := 1,
         endLine := 2, methodIdentifier := some "m[1-2]".toList,
         type := .method_definition }] :=
  ⟨rfl, rfl⟩

/-- Claim C5 (amended): the single-line test is on the method declaration
node's rows, not the body's: a method node that starts and ends on the same
row yields no standalone chunk, while the collapse collection is unaffected
by the row test (the body is still collapsed in the skeleton). -/
theorem C5_single_row_method_suppressed (code : List Char) (m : SyntaxNode)
    (base : Nat) (hm : isCollapsedNode m = true)
    (hrow : m.startRow = m.endRow) :
    chunkMethodRecursively code m = [] ∧
    collectMethodCollapsedsRecursively code base m =
      (match collectMethodCollapseds code m base with
       | some collapsed => [collapsed]
       | none => []) := by
  rcases m with ⟨ty, si, ei, sr, er, c⟩
  constructor
  · rw [chunkMethodRecursively, if_pos hm, if_pos (by simpa using hrow)]
  · rw [collectMethodCollapsedsRecursively, if_pos hm]

def methodS : SyntaxNode :=
  .mk "method_declaration" 0 12 5 5
    (.cons (.mk "identifier" 0 1 5 5 .nil)
      (.cons (.mk "block" 4 12 5 5 .nil) .nil))

/-- Claim C5 witness: a single-row method node is suppressed but still
collapsed. -/
theorem C5_single_row_method_suppressed_witness :
    isCollapsedNode methodS = true ∧ methodS.startRow = methodS.endRow ∧
    (chunkMethodRecursively contentsE methodS = [] ∧
     collectMethodCollapsedsRecursively contentsE 0 methodS =
      (match collectMethodCollapseds contentsE methodS 0 with
       | some collapsed => [collapsed]
       | none => [])) :=
  ⟨rfl, rfl, C5_single_row_method_suppressed contentsE methodS 0 rfl rfl⟩

/-- Claim C6 (amended): package resolution walks to the root and then
searches the ENTIRE tree in depth-first pre-order (the root itself first) for
the first package-declaration node — nested occurrences are eligible — and
returns the empty name exactly when no such node exists anywhere. -/
theorem C6_package_search_whole_tree (code : List Char)
    (ancestors : List SyntaxNode) (node : SyntaxNode) :
    getPackageName code ancestors node =
      match (allNodes (walkToRoot node ancestors)).find?
          (fun d => d.type == NODE_TYPES.PACKAGE) with
      | some packageNode =>
        trimChars (replaceFirst (replaceFirst (nodeText code packageNode)
          "package ".toList) ";".toList)
      | none => [] := by
  simp only [getPackageName, findNodeByType_eq_find?]

/-- Claim C6 counterexample: `exampleF` has no package declaration among the
root's direct children, yet resolution returns `p.q` found nested inside the
class body. -/
theorem C6_counterexample :
    (∀ child ∈ rootF.children.toList, child.type ≠ NODE_TYPES.PACKAGE) ∧
    getPackageName contentsF [rootF] classF = "p.q".toList := by
  exact ⟨by decide, rfl⟩

/-- Claim C7 counterexample: with no parser available and whitespace-only
contents, `codeChunker` returns the empty sequence instead of raising an
error: the blank-input test precedes the parser check. -/
theorem C7_counterexample :
    codeChunker none [' '] = Except.ok ([] : List JavaChunkWithoutID) := rfl

/-- Claim C7 (amended): when the contents are not blank and no parser is
available for the file, `codeChunker` fails with an error before emitting any
chunk. -/
theorem C7_no_parser_error (contents : List Char)
    (h : trimChars contents ≠ []) :
    codeChunker none contents =
      .error "Failed to load parser for file".toList := by
  rw [codeChunker, if_neg (by simpa [List.length_eq_zero] using h)]

/-- Claim C7 witness. -/
theorem C7_no_parser_error_witness :
    trimChars "class".toList ≠ [] ∧
    codeChunker none "class".toList =
      .error "Failed to load parser for file".toList :=
  ⟨by decide, C7_no_parser_error "class".toList (by decide)⟩

/-- Claim C8: blank or whitespace-only contents yield the empty chunk
sequence with no error, for every parser argument — in particular for
`none`, showing the parser is never consulted. -/
theorem C8_blank_input_empty_output
    (parserOpt : Option (List Char → SyntaxNode)) (contents : List Char)
    (h : trimChars contents = []) :
    codeChunker parserOpt contents = .ok [] := by
  rw [codeChunker.eq_def, if_pos (by rw [h]; rfl)]

/-- Claim C8 witness. -/
theorem C8_blank_input_empty_output_witness :
    trimChars "  \t\n ".toList = [] ∧
    codeChunker none "  \t\n ".toList = .ok [] :=
  ⟨by decide, C8_blank_input_empty_output none "  \t\n ".toList (by decide)⟩

/-- Claim C9: `codeChunker` is a pure function of the contents and the tree
the provider returns: two runs whose parsers agree on the given contents
produce identical chunk sequences. -/
theorem C9_deterministic (p1 p2 : List Char → SyntaxNode)
    (contents : List Char) (h : p1 contents = p2 contents) :
    codeChunker (some p1) contents = codeChunker (some p2) contents := by
  rw [codeChunker, codeChunker, h]

/-- Claim C9 witness. -/
theorem C9_deterministic_witness :
    parseA contentsA = parseA contentsA ∧
    codeChunker (some parseA) contentsA = codeChunker (some parseA) contentsA :=
  ⟨rfl, C9_deterministic parseA parseA contentsA rfl⟩

/-- Claim C10: under row sanity of the tree, every emitted
`method_definition` chunk has `startLine < endLine` and carries a method
identifier, and every `class_definition` chunk has `startLine ≤ endLine` and
carries none. -/
theorem C10_chunk_invariants (parse : List Char → SyntaxNode)
    (contents : List Char) (chunks : List JavaChunkWithoutID)
    (hok : codeChunker (some parse) contents = .ok chunks)
    (hwf : rowsWF (parse contents) = true) :
    ∀ ch ∈ chunks, chunkInvariant ch := by
  intro ch hch
  rw [codeChunker.eq_def] at hok
  by_cases htrim : (trimChars contents).length = 0
  · rw [if_pos htrim] at hok
    cases hok
    exact absurd hch (List.not_mem_nil ch)
  · rw [if_neg htrim] at hok
    have hok2 : (Except.ok (chunkTopLevels contents (parse contents).children)
        : Except (List Char) (List JavaChunkWithoutID)) = Except.ok chunks := hok
    rcases hp : parse contents with ⟨ty, si, ei, sr, er, c⟩
    rw [hp] at hok2 hwf
    rw [rowsWF, Bool.and_eq_true] at hwf
    cases hok2
    exact chunkTopLevels_invariant contents
      (SyntaxNode.mk ty si ei sr er c).children hwf.2 ch hch

/-- Claim C10 witness: both chunks of `exampleA` satisfy the invariants. -/
theorem C10_chunk_invariants_witness :
    codeChunker (some parseA) contentsA = .ok [skeletonChunkA, methodChunkA] ∧
    rowsWF rootA = true ∧ chunkInvariant methodChunkA :=
  ⟨rfl, by decide,
    C10_chunk_invariants parseA contentsA [skeletonChunkA, methodChunkA] rfl
      (by decide) methodChunkA (by simp)⟩
